import Mathlib

/-!
Verification of the school-records bot (`src/school_bot.py`).

The repository is a Telegram bot that collects (name, age, grade) records
through a three-step dialogue (aiogram FSM), persists them in a SQLite
table `students`, lists recent records and exports the table to CSV.

We shallowly embed the program:
* Python `str.strip()` becomes `pyStrip` (ASCII whitespace);
* Python `int(...)` on strings becomes `pyInt` (optional sign, decimal
  digits, single underscores allowed between digits, surrounding
  whitespace stripped — `ValueError` becomes `none`);
* the SQLite table becomes a `DB`: a list of rows plus the next
  AUTOINCREMENT id; `add_student` / `list_students` /
  `export_students_csv` are translated from the source;
* the aiogram handlers `on_start`, `on_cancel`, `on_name`, `on_age`,
  `on_grade` become one pure `step` function on a per-user `Session`
  (FSM state plus the `name`/`age` entries of the FSM data dict);
  outbound `message.answer` calls become a list of strings;
* the per-user `MemoryStorage` of the dispatcher becomes a total map
  `UserId → Session` and `gstep` dispatches one inbound event.
-/

namespace SchoolBot

/-- The six ASCII whitespace characters stripped by Python `str.strip()`
(we model the ASCII fragment of Python's whitespace set). -/
def isPySpace (c : Char) : Bool :=
  c = ' ' || c = '\t' || c = '\n' || c = '\x0d' || c = '\x0b' || c = '\x0c'

/-- Strip leading and trailing whitespace from a list of characters. -/
def stripList (l : List Char) : List Char :=
  ((l.dropWhile isPySpace).reverse.dropWhile isPySpace).reverse

/-- Python `str.strip()` (no argument): remove leading and trailing
whitespace. -/
def pyStrip (s : String) : String :=
  String.mk (stripList s.toList)

/-- Decimal digit test (`'0'`–`'9'`). -/
def isDig (c : Char) : Bool := '0' ≤ c && c ≤ '9'

/-- Value of a decimal digit character. -/
def digVal (c : Char) : Nat := c.toNat - 48

/-- Continue parsing a Python decimal digit-part after the first digit:
each further character is a digit, or a single underscore followed by a
digit (Python 3 allows `1_000`); a trailing or doubled underscore is a
parse error. -/
def digTail : List Char → Nat → Option Nat
  | [], acc => some acc
  | [c], acc => if isDig c then some (acc * 10 + digVal c) else none
  | c :: c2 :: rest, acc =>
    if isDig c then digTail (c2 :: rest) (acc * 10 + digVal c)
    else if c = '_' && isDig c2 then digTail rest (acc * 10 + digVal c2)
    else none

/-- Parse a nonempty Python digit-part (first character must be a digit,
no leading underscore). -/
def digPart : List Char → Option Nat
  | [] => none
  | c :: rest => if isDig c then digTail rest (digVal c) else none

/-- Python `int(s)` for a decimal string: strip whitespace, optional
single `+`/`-` sign, then a digit-part; anything else raises
`ValueError`, modelled as `none`. -/
def pyInt (s : String) : Option Int :=
  match stripList s.toList with
  | [] => none
  | '+' :: rest => (digPart rest).map Int.ofNat
  | '-' :: rest => (digPart rest).map (fun n => -(Int.ofNat n))
  | l => (digPart l).map Int.ofNat

/-- `parse_age` from the source: `int(text.strip())`, then the value is
returned iff `1 <= age <= 120`, else `None`; a `ValueError` is caught
and also gives `None`. -/
def parse_age (text : String) : Option Int :=
  match pyInt (pyStrip text) with
  | none => none
  | some age => if 1 ≤ age && age ≤ 120 then some age else none

/-- Decimal rendering of a `Nat`, fuel-based accumulator form (models
Python `str()` on a non-negative int, as used by the f-strings in the
source; the fuel argument only makes the recursion structural). -/
def natToDecCore : Nat → Nat → List Char → List Char
  | 0, _, acc => acc
  | fuel + 1, n, acc =>
    if n < 10 then Char.ofNat (48 + n % 10) :: acc
    else natToDecCore fuel (n / 10) (Char.ofNat (48 + n % 10) :: acc)

/-- Decimal rendering of a `Nat` as a string. -/
def natToDec (n : Nat) : String :=
  String.mk (natToDecCore (n + 1) n [])

/-- Decimal rendering of an `Int` (models Python `str()` on int). -/
def intToDec (i : Int) : String :=
  match i with
  | Int.ofNat n => natToDec n
  | Int.negSucc n => "-" ++ natToDec (n + 1)

example : pyStrip "  Ann \n" = "Ann" := by decide
example : parse_age " 10 " = some 10 := by decide
example : parse_age "0" = none := by decide
example : parse_age "121" = none := by decide
example : parse_age "-5" = none := by decide
example : parse_age "" = none := by decide
example : parse_age "5.5" = none := by decide
example : parse_age "abc" = none := by decide
example : parse_age "1_2" = some 12 := by decide
example : parse_age "1_" = none := by decide
example : parse_age "+7" = some 7 := by decide
example : natToDec 120 = "120" := by decide
example : intToDec (-5) = "-5" := by decide

/-! ## Record repository (`students` table in SQLite) -/

/-- One row of the `students` table. -/
structure Student where
  id : Nat
  name : String
  age : Int
  grade : String
deriving DecidableEq, Repr

/-- The SQLite database: the rows of `students` in insertion (ascending
id) order, plus the next id the `INTEGER PRIMARY KEY AUTOINCREMENT`
column will assign (ids start at 1). -/
structure DB where
  rows : List Student
  nextId : Nat
deriving DecidableEq, Repr

/-- The database right after `init_db` on a fresh file: empty table,
first id to be assigned is 1. -/
def DB.empty : DB := ⟨[], 1⟩

/-- `add_student(name, age, grade)`: strip name and grade, `INSERT`, and
return the updated database together with `cur.lastrowid`. -/
def add_student (db : DB) (name : String) (age : Int) (grade : String) :
    DB × Nat :=
  let n := pyStrip name
  let g := pyStrip grade
  (⟨db.rows ++ [⟨db.nextId, n, age, g⟩], db.nextId + 1⟩, db.nextId)

/-- `ORDER BY id DESC`: `a` comes before `b` when `b.id ≤ a.id`. -/
def idDesc (a b : Student) : Prop := b.id ≤ a.id

instance : DecidableRel idDesc := fun a b => Nat.decLe b.id a.id

instance : IsTotal Student idDesc :=
  ⟨fun a b => Nat.le_total b.id a.id⟩

instance : IsTrans Student idDesc :=
  ⟨fun _ _ _ h1 h2 => Nat.le_trans h2 h1⟩

/-- `ORDER BY id ASC`. -/
def idAsc (a b : Student) : Prop := a.id ≤ b.id

instance : DecidableRel idAsc := fun a b => Nat.decLe a.id b.id

instance : IsTotal Student idAsc :=
  ⟨fun a b => Nat.le_total a.id b.id⟩

instance : IsTrans Student idAsc :=
  ⟨fun _ _ _ h1 h2 => Nat.le_trans h1 h2⟩

/-- `list_students(limit)`: `SELECT id, name, age, grade FROM students
ORDER BY id DESC LIMIT ?`. -/
def list_students (db : DB) (limit : Nat) : List Student :=
  (List.insertionSort idDesc db.rows).take limit

/-- A timestamp as produced by `datetime.now()`: year, month, day, hour,
minute, second (the fields `strftime('%Y%m%d_%H%M%S')` uses). -/
structure Timestamp where
  year : Nat
  month : Nat
  day : Nat
  hour : Nat
  minute : Nat
  second : Nat
deriving DecidableEq, Repr

/-- Zero-pad the decimal rendering of `n` on the left to width `w`
(`strftime` pads `%Y` to 4 and `%m`/`%d`/`%H`/`%M`/`%S` to 2). -/
def padNum (w : Nat) (n : Nat) : String :=
  String.mk (List.replicate (w - (natToDec n).length) '0') ++ natToDec n

/-- `datetime.now().strftime('%Y%m%d_%H%M%S')`. -/
def tsFormat (t : Timestamp) : String :=
  padNum 4 t.year ++ padNum 2 t.month ++ padNum 2 t.day ++ "_" ++
    padNum 2 t.hour ++ padNum 2 t.minute ++ padNum 2 t.second

/-- The text written for one row, without the terminating newline:
`f"{_id},{name},{age},{grade}"` with literal commas, no quoting or
escaping. -/
def csvBody (r : Student) : String :=
  natToDec r.id ++ "," ++ r.name ++ "," ++ intToDec r.age ++ "," ++
    r.grade

/-- The CSV line written for one row: `f"{_id},{name},{age},{grade}\n"`
(no quoting or escaping). -/
def csvLine (r : Student) : String :=
  csvBody r ++ "\n"

/-- The body of the export loop: one `f.write` of `csvLine r` per row,
in order. -/
def writeAll : List Student → String
  | [] => ""
  | r :: rs => csvLine r ++ writeAll rs

/-- `export_students_csv()`: the path of the file written into the
`exports` directory and its full contents — header line
`id,name,age,grade`, then one `csvLine` per row in `ORDER BY id ASC`
order.  The wall-clock time is passed in as `now`; file-system effects
are modelled by returning the contents. -/
def export_students_csv (db : DB) (now : Timestamp) : String × String :=
  let filename := "exports/students_" ++ tsFormat now ++ ".csv"
  let rows := List.insertionSort idAsc db.rows
  (filename, "id,name,age,grade\n" ++ writeAll rows)

/-! ## Sessions and the conversation handlers -/

/-- The FSM states of `StudentForm` (`Idle` is the absence of a set
state). -/
inductive FormState
  | name
  | age
  | grade
deriving DecidableEq, Repr

/-- One user's aiogram FSM context: the current `StudentForm` state (or
none) and the `name`/`age` entries of the FSM data dict (`grade` is
never stored — `on_grade` uses it directly). -/
structure Session where
  st : Option FormState
  dName : Option String
  dAge : Option Int
deriving DecidableEq, Repr

/-- The context after `state.clear()` (or before any event): no state,
empty data. -/
def Session.idle : Session := ⟨none, none, none⟩

/-- The inbound events of §6 of the design: `/start`, `/cancel`, a plain
text message, `/students`, `/export_csv`. -/
inductive Event
  | start
  | cancel
  | text (t : String)
  | listRecent
  | exportCsv
deriving DecidableEq, Repr

def startMsg : String :=
  "Привет! Я бот для записи учеников в базу данных.\n" ++
  "Давай внесём твою информацию.\n\n" ++
  "Как тебя зовут?\n\n" ++
  "ℹ️ В любой момент можно отменить: /cancel"

def cancelMsg : String := "Операция отменена. Чтобы начать заново — /start"

def nameEmptyMsg : String := "Имя не должно быть пустым. Введи имя ещё раз."

def askAgeMsg : String := "Сколько тебе лет? (целое число 1–120)"

def ageInvalidMsg : String :=
  "Возраст должен быть целым числом от 1 до 120. Попробуй ещё раз."

def askGradeMsg : String := "В каком ты классе? (например: 5А или 5)"

def gradeEmptyMsg : String := "Класс не должен быть пустым. Введи класс ещё раз."

def dataInvalidMsg : String := "Данные некорректны. Начни заново: /start"

def dbErrorMsg : String := "Ошибка БД. Попробуйте позже."

/-- The success report of `on_grade`, echoing the assigned id and the
stored fields. -/
def successMsg (sid : Nat) (name : String) (age : Int) (grade : String) :
    String :=
  "✅ Сохранено!\n\n" ++
  "ID: " ++ natToDec sid ++ "\n" ++
  "Имя: " ++ name ++ "\n" ++
  "Возраст: " ++ intToDec age ++ "\n" ++
  "Класс: " ++ grade ++ "\n\n" ++
  "Чтобы добавить ещё — /start\n" ++
  "Посмотреть последние записи — /students"

/-- Result of handling one inbound event for one user: the user's new
session, the new database, and the texts sent back to the user. -/
structure StepResult where
  s : Session
  db : DB
  out : List String
deriving DecidableEq, Repr

/-- One dispatch of the router for a single user's event.  `dbOk` is
true when the SQLite `INSERT` of `add_student` commits and false when it
raises `sqlite3.Error` (caught by `on_grade`, which answers
`dbErrorMsg`; the transaction is rolled back, so the database is
unchanged).  `on_start` is `state.clear()` + prompt + `set_state(name)`;
`on_cancel` is `state.clear()` + acknowledgement; a text message is
routed to `on_name` / `on_age` / `on_grade` by the current FSM state and
is ignored when no state is set. -/
def step (dbOk : Bool) (e : Event) (s : Session) (db : DB) : StepResult :=
  match e with
  | .start => ⟨⟨some .name, none, none⟩, db, [startMsg]⟩
  | .cancel => ⟨Session.idle, db, [cancelMsg]⟩
  | .listRecent => ⟨s, db, []⟩
  | .exportCsv => ⟨s, db, []⟩
  | .text t =>
    match s.st with
    | none => ⟨s, db, []⟩
    | some .name =>
      let n := pyStrip t
      if n = "" then ⟨s, db, [nameEmptyMsg]⟩
      else ⟨⟨some .age, some n, s.dAge⟩, db, [askAgeMsg]⟩
    | some .age =>
      match parse_age t with
      | none => ⟨s, db, [ageInvalidMsg]⟩
      | some a => ⟨⟨some .grade, s.dName, some a⟩, db, [askGradeMsg]⟩
    | some .grade =>
      let g := pyStrip t
      if g = "" then ⟨s, db, [gradeEmptyMsg]⟩
      else
        let nm := pyStrip (s.dName.getD "")
        match s.dAge with
        | none => ⟨Session.idle, db, [dataInvalidMsg]⟩
        | some a =>
          if nm = "" then ⟨Session.idle, db, [dataInvalidMsg]⟩
          else if dbOk then
            let r := add_student db nm a g
            ⟨Session.idle, r.1, [successMsg r.2 nm a g]⟩
          else ⟨Session.idle, db, [dbErrorMsg]⟩

/-- Run a list of events for one user (inserts succeeding), collecting
every text sent. -/
def run (es : List Event) (s : Session) (db : DB) : StepResult :=
  es.foldl
    (fun r e =>
      let r2 := step true e r.s r.db
      ⟨r2.s, r2.db, r.out ++ r2.out⟩)
    ⟨s, db, []⟩

example :
    run [.start, .text " Ann ", .text "10", .text "4B"] Session.idle DB.empty =
      ⟨Session.idle, ⟨[⟨1, "Ann", 10, "4B"⟩], 2⟩,
        [startMsg, askAgeMsg, askGradeMsg, successMsg 1 "Ann" 10 "4B"]⟩ := by
  decide

example :
    run [.start, .text "  ", .text "Ann", .text "500"] Session.idle DB.empty =
      ⟨⟨some .age, some "Ann", none⟩, DB.empty,
        [startMsg, nameEmptyMsg, askAgeMsg, ageInvalidMsg]⟩ := by
  decide

/-! ## Basic facts about stripping -/

lemma stripList_idem (l : List Char) :
    stripList (stripList l) = stripList l := by
  have hE : ∀ m : List Char,
      List.dropWhile isPySpace
          (List.rdropWhile isPySpace (List.dropWhile isPySpace m)) =
        List.rdropWhile isPySpace (List.dropWhile isPySpace m) := by
    intro m
    rcases hc : List.rdropWhile isPySpace (List.dropWhile isPySpace m) with
      _ | ⟨c, t⟩
    · simp
    · have hpre := List.rdropWhile_prefix isPySpace (List.dropWhile isPySpace m)
      rw [hc] at hpre
      obtain ⟨r, hr⟩ := hpre
      have hne : List.dropWhile isPySpace m ≠ [] := by
        rw [← hr]; simp
      have hhead := List.head_dropWhile_not isPySpace m hne
      have h2 : (List.dropWhile isPySpace m).head? = some c := by
        rw [← hr]; rfl
      rw [ List.head?_eq_head hne] at h2
      rw [Option.some.inj h2] at hhead
      simp [List.dropWhile_cons, hhead]
  calc stripList (stripList l)
      = List.rdropWhile isPySpace (List.dropWhile isPySpace
          (List.rdropWhile isPySpace (List.dropWhile isPySpace l))) := rfl
    _ = List.rdropWhile isPySpace
          (List.rdropWhile isPySpace (List.dropWhile isPySpace l)) := by
        rw [hE]
    _ = List.rdropWhile isPySpace (List.dropWhile isPySpace l) :=
        List.rdropWhile_idempotent _ _
    _ = stripList l := rfl

lemma pyStrip_idem (s : String) : pyStrip (pyStrip s) = pyStrip s := by
  have h : pyStrip (pyStrip s) = String.mk (stripList (stripList s.toList)) := rfl
  rw [h, stripList_idem]
  rfl

lemma pyInt_pyStrip (s : String) : pyInt (pyStrip s) = pyInt s := by
  have h : (pyStrip s).toList = stripList s.toList := rfl
  unfold pyInt
  rw [h, stripList_idem]

/-! ## C2: the age validator -/

set_option maxRecDepth 8000 in
/-- C2: `parse_age` accepts an input string exactly when it parses as a
base-10 integer (Python `int` semantics) with value in `[1, 120]`,
returning that integer; `"0"`, `"121"`, `"-5"`, `""`, `"5.5"` and
`"abc"` are all rejected with `none` (the validator is a total function,
so it never raises); and every decimal numeral of an integer in
`[1, 120]` is accepted. -/
theorem parse_age_spec :
    (∀ (s : String) (v : Int),
        parse_age s = some v ↔ pyInt s = some v ∧ 1 ≤ v ∧ v ≤ 120) ∧
    parse_age "0" = none ∧ parse_age "121" = none ∧ parse_age "-5" = none ∧
    parse_age "" = none ∧ parse_age "5.5" = none ∧ parse_age "abc" = none ∧
    (∀ m : Nat, 1 ≤ m → m ≤ 120 → parse_age (natToDec m) = some (m : Int)) := by
  refine ⟨?_, by decide, by decide, by decide, by decide, by decide, by decide, ?_⟩
  · intro s v
    unfold parse_age
    rw [pyInt_pyStrip]
    cases h : pyInt s with
    | none => simp
    | some w =>
      constructor
      · intro hpa
        dsimp only at hpa
        by_cases hcond : 1 ≤ w ∧ w ≤ 120
        · rw [if_pos (by simp [hcond.1, hcond.2])] at hpa
          have hwv := Option.some.inj hpa
          subst hwv
          exact ⟨rfl, hcond.1, hcond.2⟩
        · rw [if_neg (by simpa using hcond)] at hpa
          exact absurd hpa (by simp)
      · rintro ⟨hw, h1, h2⟩
        have hwv : w = v := Option.some.inj hw
        subst hwv
        dsimp only
        rw [if_pos (by simp [h1, h2])]
  · intro m h1 h2
    have key : ∀ m ∈ Finset.Icc (1 : Nat) 120,
        parse_age (natToDec m) = some (m : Int) := by decide
    exact key m (Finset.mem_Icc.mpr ⟨h1, h2⟩)

/-- C2 witness: the characterization applied at the concrete input
`"42"`. -/
theorem parse_age_spec_witness : parse_age "42" = some 42 :=
  (parse_age_spec.1 "42" 42).mpr ⟨by decide, by decide, by decide⟩

/-! ## C3: name and grade validation -/

/-- C3: in `AwaitingName` and `AwaitingGrade`, the submitted text is
judged invalid (re-prompt, nothing changes) exactly when it is empty
after stripping; any text with non-empty stripped content is accepted —
the name handler stores the stripped name and advances, and the grade
handler (on a session whose stored data passes the final re-validation)
persists the record with the stripped grade. -/
theorem name_grade_validation (s : Session) (db : DB) (t : String) :
    (s.st = some FormState.name →
      ((step true (.text t) s db = ⟨s, db, [nameEmptyMsg]⟩) ↔ pyStrip t = "") ∧
      (pyStrip t ≠ "" →
        step true (.text t) s db =
          ⟨⟨some FormState.age, some (pyStrip t), s.dAge⟩, db, [askAgeMsg]⟩)) ∧
    (s.st = some FormState.grade →
      ((step true (.text t) s db = ⟨s, db, [gradeEmptyMsg]⟩) ↔ pyStrip t = "") ∧
      (pyStrip t ≠ "" → ∀ a : Int, s.dAge = some a →
        pyStrip (s.dName.getD "") ≠ "" →
        step true (.text t) s db =
          ⟨Session.idle,
           (add_student db (pyStrip (s.dName.getD "")) a (pyStrip t)).1,
           [successMsg db.nextId (pyStrip (s.dName.getD "")) a (pyStrip t)]⟩)) := by
  constructor
  · intro hst
    constructor
    · by_cases hv : pyStrip t = ""
      · simp [step, hst, hv]
      · simp only [step, hst, hv, if_false, hv, iff_false]
        intro hEq
        have : (⟨some FormState.age, some (pyStrip t), s.dAge⟩ : Session) = s :=
          congrArg StepResult.s hEq
        rw [← this] at hst
        simp at hst
    · intro hv
      simp [step, hst, hv]
  · intro hst
    constructor
    · by_cases hv : pyStrip t = ""
      · simp [step, hst, hv]
      · simp only [step, hst, hv, if_false, iff_false]
        intro hEq
        rcases ha : s.dAge with _ | a
        · rw [ha] at hEq
          dsimp only at hEq
          have hS : Session.idle = s := congrArg StepResult.s hEq
          rw [← hS] at hst
          simp [Session.idle] at hst
        · rw [ha] at hEq
          dsimp only at hEq
          by_cases hnm : pyStrip (s.dName.getD "") = ""
          · rw [if_pos hnm] at hEq
            have hS : Session.idle = s := congrArg StepResult.s hEq
            rw [← hS] at hst
            simp [Session.idle] at hst
          · rw [if_neg hnm, if_pos trivial] at hEq
            have hS : Session.idle = s := congrArg StepResult.s hEq
            rw [← hS] at hst
            simp [Session.idle] at hst
    · intro hv a ha hnm
      simp [step, hst, hv, ha, hnm, add_student]

/-- C3 witness: both validators exercised at concrete inputs — an
all-whitespace name is re-prompted, and a valid grade on a well-formed
session persists the record. -/
theorem name_grade_validation_witness :
    step true (.text "  ") ⟨some FormState.name, none, none⟩ DB.empty =
      ⟨⟨some FormState.name, none, none⟩, DB.empty, [nameEmptyMsg]⟩ ∧
    step true (.text " 4B ") ⟨some FormState.grade, some "Ann", some 10⟩ DB.empty =
      ⟨Session.idle, ⟨[⟨1, "Ann", 10, "4B"⟩], 2⟩, [successMsg 1 "Ann" 10 "4B"]⟩ := by
  constructor
  · exact ((name_grade_validation ⟨some FormState.name, none, none⟩ DB.empty
      "  ").1 rfl).1.mpr (by decide)
  · have h := ((name_grade_validation ⟨some FormState.grade, some "Ann", some 10⟩
      DB.empty " 4B ").2 rfl).2 (by decide) 10 rfl (by decide)
    rw [h]
    decide

/-! ## C5: validation failure leaves the session untouched -/

/-- C5: in each awaiting state, a text that fails that field's
validation produces exactly the re-prompt, and the session, its
collected fields, and the database are left unchanged (no record is
created), whether or not the store is healthy. -/
theorem validation_failure_frame (ok : Bool) (s : Session) (db : DB) (t : String) :
    (s.st = some FormState.name → pyStrip t = "" →
      step ok (.text t) s db = ⟨s, db, [nameEmptyMsg]⟩) ∧
    (s.st = some FormState.age → parse_age t = none →
      step ok (.text t) s db = ⟨s, db, [ageInvalidMsg]⟩) ∧
    (s.st = some FormState.grade → pyStrip t = "" →
      step ok (.text t) s db = ⟨s, db, [gradeEmptyMsg]⟩) := by
  refine ⟨?_, ?_, ?_⟩ <;> intro hst hv <;> simp [step, hst, hv]

/-- C5 witness: an out-of-range age (`"500"`) in `AwaitingAge` re-prompts
and leaves the session with its collected name untouched. -/
theorem validation_failure_frame_witness :
    step true (.text "500") ⟨some FormState.age, some "Ann", none⟩ DB.empty =
      ⟨⟨some FormState.age, some "Ann", none⟩, DB.empty, [ageInvalidMsg]⟩ :=
  (validation_failure_frame true ⟨some FormState.age, some "Ann", none⟩
    DB.empty "500").2.1 rfl (by decide)

/-! ## C1: the full dialogue persists the validated record -/

/-- C1: for any dialogue run `start → text(name) → text(age) →
text(grade)` in which all three inputs pass validation, the persisted
record carries the stripped name, the parsed age, and the stripped
grade, with the id the repository assigns; the success message echoes
the id and those fields. -/
theorem full_dialogue_persists (s0 : Session) (db : DB) (n a g : String)
    (v : Int) (hn : pyStrip n ≠ "") (ha : parse_age a = some v)
    (hg : pyStrip g ≠ "") :
    run [.start, .text n, .text a, .text g] s0 db =
      ⟨Session.idle,
       ⟨db.rows ++ [⟨db.nextId, pyStrip n, v, pyStrip g⟩], db.nextId + 1⟩,
       [startMsg, askAgeMsg, askGradeMsg,
        successMsg db.nextId (pyStrip n) v (pyStrip g)]⟩ := by
  simp [run, step, add_student, hn, ha, hg, pyStrip_idem]

/-- C1 witness: the dialogue `start → " Ann " → "10" → " 4B "` persists
`(1, "Ann", 10, "4B")` into the empty database. -/
theorem full_dialogue_persists_witness :
    run [.start, .text " Ann ", .text "10", .text " 4B "] Session.idle DB.empty =
      ⟨Session.idle, ⟨[⟨1, pyStrip " Ann ", 10, pyStrip " 4B "⟩], 2⟩,
       [startMsg, askAgeMsg, askGradeMsg,
        successMsg 1 (pyStrip " Ann ") 10 (pyStrip " 4B ")]⟩ :=
  full_dialogue_persists Session.idle DB.empty " Ann " "10" " 4B " 10
    (by decide) (by decide) (by decide)

/-! ## C4: storage failure at the final step -/

/-- C4: when the final `INSERT` raises a storage error, `on_grade`
catches it, answers the generic `dbErrorMsg`, leaves the database
unchanged (no retry, no partial record), and clears the session —
exactly as the session is cleared on success. -/
theorem storage_failure_handling (s : Session) (db : DB) (g : String)
    (hst : s.st = some FormState.grade) (hg : pyStrip g ≠ "")
    (a : Int) (ha : s.dAge = some a)
    (hnm : pyStrip (s.dName.getD "") ≠ "") :
    step false (.text g) s db = ⟨Session.idle, db, [dbErrorMsg]⟩ ∧
    step true (.text g) s db =
      ⟨Session.idle,
       ⟨db.rows ++ [⟨db.nextId, pyStrip (s.dName.getD ""), a, pyStrip g⟩],
        db.nextId + 1⟩,
       [successMsg db.nextId (pyStrip (s.dName.getD "")) a (pyStrip g)]⟩ := by
  constructor <;> simp [step, hst, hg, ha, hnm, add_student, pyStrip_idem]

/-- C4 witness: a failing insert at the final step answers the generic
storage-failure message, keeps the database unchanged, and removes the
session. -/
theorem storage_failure_handling_witness :
    step false (.text "4B") ⟨some FormState.grade, some "Ann", some 10⟩
        DB.empty =
      ⟨Session.idle, DB.empty, [dbErrorMsg]⟩ :=
  (storage_failure_handling ⟨some FormState.grade, some "Ann", some 10⟩
    DB.empty "4B" rfl (by decide) 10 rfl (by decide)).1

/-! ## C6: listing recent records -/

/-- The database obtained by inserting five students into a fresh store;
their ids are 1..5. -/
def db5 : DB :=
  (add_student (add_student (add_student (add_student (add_student
    DB.empty "A" 7 "1A").1 "B" 8 "2B").1 "C" 9 "3C").1
    "D" 10 "4D").1 "E" 11 "5E").1

/-- C6: `list_students` returns at most `limit` records, ordered by id
descending; after inserting records with ids 1..5, `list_students 3`
returns exactly the records with ids `[5, 4, 3]` in that order. -/
theorem list_students_spec :
    (∀ (db : DB) (limit : Nat),
      (list_students db limit).length ≤ limit ∧
      List.Sorted idDesc (list_students db limit)) ∧
    (list_students db5 3).map Student.id = [5, 4, 3] ∧
    list_students db5 3 =
      [⟨5, "E", 11, "5E"⟩, ⟨4, "D", 10, "4D"⟩, ⟨3, "C", 9, "3C"⟩] := by
  refine ⟨?_, by decide, by decide⟩
  intro db limit
  constructor
  · show ((List.insertionSort idDesc db.rows).take limit).length ≤ limit
    rw [List.length_take]
    exact min_le_left _ _
  · exact List.Pairwise.sublist (List.take_sublist _ _)
      (List.sorted_insertionSort idDesc db.rows)

/-! ## C8: cancel and start reset the session -/

/-- C8: a cancel event in any state removes the session; a start event
in any state creates a session in `AwaitingName` with empty collected
fields; and a full dialogue after a cancel + start persists exactly the
newly submitted fields — nothing from the aborted session (arbitrary
`s`) leaks into the new session or the record. -/
theorem cancel_start_reset (s : Session) (db : DB) (ok : Bool) :
    step ok .cancel s db = ⟨Session.idle, db, [cancelMsg]⟩ ∧
    step ok .start s db = ⟨⟨some FormState.name, none, none⟩, db, [startMsg]⟩ ∧
    (∀ (n a g : String) (v : Int), pyStrip n ≠ "" → parse_age a = some v →
      pyStrip g ≠ "" →
      run [.cancel, .start, .text n, .text a, .text g] s db =
        ⟨Session.idle,
         ⟨db.rows ++ [⟨db.nextId, pyStrip n, v, pyStrip g⟩], db.nextId + 1⟩,
         [cancelMsg, startMsg, askAgeMsg, askGradeMsg,
          successMsg db.nextId (pyStrip n) v (pyStrip g)]⟩) := by
  refine ⟨by simp [step], by simp [step], ?_⟩
  intro n a g v hn ha hg
  simp [run, step, add_student, hn, ha, hg, pyStrip_idem]

/-- C8 witness: cancelling a half-filled session and restarting yields a
record built only from the new inputs. -/
theorem cancel_start_reset_witness :
    run [.cancel, .start, .text "Bob", .text "11", .text "5A"]
        ⟨some FormState.grade, some "Ann", some 10⟩ DB.empty =
      ⟨Session.idle, ⟨[⟨1, pyStrip "Bob", 11, pyStrip "5A"⟩], 2⟩,
       [cancelMsg, startMsg, askAgeMsg, askGradeMsg,
        successMsg 1 (pyStrip "Bob") 11 (pyStrip "5A")]⟩ :=
  (cancel_start_reset ⟨some FormState.grade, some "Ann", some 10⟩
    DB.empty true).2.2 "Bob" "11" "5A" 11 (by decide) (by decide) (by decide)

/-! ## C10: sessions built by the handlers always pass the final
re-validation -/

/-- The session produced by one dispatch: the handlers change the
session independently of the database contents and of whether the store
is healthy, so the session evolution is a pure function of the event. -/
def sstep (e : Event) (s : Session) : Session :=
  (step true e s DB.empty).s

lemma step_s_eq (ok : Bool) (e : Event) (s : Session) (db : DB) :
    (step ok e s db).s = sstep e s := by
  unfold sstep step
  cases e with
  | start => rfl
  | cancel => rfl
  | listRecent => rfl
  | exportCsv => rfl
  | text t =>
    rcases s.st with _ | f
    · rfl
    · cases f with
      | name => dsimp only; split <;> rfl
      | age => dsimp only; rcases parse_age t with _ | a <;> rfl
      | grade =>
        dsimp only
        split
        · rfl
        · rcases s.dAge with _ | a
          · rfl
          · dsimp only
            split
            · rfl
            · cases ok <;> rfl

/-- A well-formed stored name: some value that is already stripped and
non-empty (exactly what `on_name` stores). -/
def goodName (o : Option String) : Prop :=
  ∃ nm, o = some nm ∧ pyStrip nm = nm ∧ nm ≠ ""

/-- The invariant the handlers maintain: in `AwaitingAge` a valid name
has been stored, and in `AwaitingGrade` both a valid name and an integer
age have been stored. -/
def SessionInv (s : Session) : Prop :=
  (s.st = some FormState.age → goodName s.dName) ∧
  (s.st = some FormState.grade → goodName s.dName ∧ s.dAge ≠ none)

/-- Sessions reachable through the dialogue handlers themselves,
starting from the idle (no-session) state. -/
inductive Reachable : Session → Prop
  | init : Reachable Session.idle
  | next (ok : Bool) (e : Event) (db : DB) {s : Session} :
      Reachable s → Reachable (step ok e s db).s

lemma sessionInv_idle : SessionInv Session.idle := by
  constructor <;> intro h' <;> simp [Session.idle] at h'

lemma sessionInv_step (ok : Bool) (e : Event) (db : DB) (s : Session)
    (h : SessionInv s) : SessionInv (step ok e s db).s := by
  rw [step_s_eq]
  unfold sstep step
  cases e with
  | start =>
    dsimp only
    exact ⟨fun h' => by simp at h', fun h' => by simp at h'⟩
  | cancel => exact sessionInv_idle
  | listRecent => exact h
  | exportCsv => exact h
  | text t =>
    rcases hst : s.st with _ | f
    · exact h
    · cases f with
      | name =>
        dsimp only
        by_cases hv : pyStrip t = ""
        · rw [if_pos hv]; exact h
        · rw [if_neg hv]
          constructor
          · intro _
            exact ⟨pyStrip t, rfl, pyStrip_idem t, hv⟩
          · intro h'
            simp at h'
      | age =>
        dsimp only
        rcases parse_age t with _ | a
        · exact h
        · constructor
          · intro h'
            simp at h'
          · intro _
            exact ⟨h.1 hst, by simp⟩
      | grade =>
        dsimp only
        split
        · exact h
        · rcases s.dAge with _ | a
          · exact sessionInv_idle
          · dsimp only
            split
            · exact sessionInv_idle
            · split
              · exact sessionInv_idle
              · exact sessionInv_idle

lemma reachable_inv {s : Session} (h : Reachable s) : SessionInv s := by
  induction h with
  | init => exact sessionInv_idle
  | next ok e db _ ih => exact sessionInv_step ok e db _ ih

/-- C10: on any session that reaches `AwaitingGrade` through the
handlers themselves, the final re-validation of `on_grade` always
passes — a stripped, non-empty name and an integer age are stored — so
for a non-empty grade the handler always takes the persist branch
(success report on a healthy store, storage-error report on a failing
one), never the generic "data invalid, start over" branch. -/
theorem final_validation_passes (s : Session) (hs : Reachable s)
    (hst : s.st = some FormState.grade) (g : String) (db : DB)
    (hg : pyStrip g ≠ "") :
    ∃ (nm : String) (a : Int), s.dName = some nm ∧ s.dAge = some a ∧
      pyStrip nm ≠ "" ∧
      step true (.text g) s db =
        ⟨Session.idle,
         ⟨db.rows ++ [⟨db.nextId, nm, a, pyStrip g⟩], db.nextId + 1⟩,
         [successMsg db.nextId nm a (pyStrip g)]⟩ ∧
      step false (.text g) s db = ⟨Session.idle, db, [dbErrorMsg]⟩ := by
  obtain ⟨-, h2⟩ := reachable_inv hs
  obtain ⟨⟨nm, hnm, hidem, hne⟩, hage⟩ := h2 hst
  rcases ha : s.dAge with _ | a
  · exact absurd ha hage
  · refine ⟨nm, a, hnm, rfl, ?_, ?_, ?_⟩
    · rw [hidem]; exact hne
    · simp [step, hst, hg, ha, hnm, add_student, hidem, hne, pyStrip_idem]
    · simp [step, hst, hg, ha, hnm, hidem, hne]

/-- C10 witness: the session reached by `start → "Ann" → "10"` is in
`AwaitingGrade` and the final step on it persists the record. -/
theorem final_validation_passes_witness :
    step true (.text " 4B ") ⟨some FormState.grade, some "Ann", some 10⟩
        DB.empty =
      ⟨Session.idle, ⟨[⟨1, "Ann", 10, "4B"⟩], 2⟩,
       [successMsg 1 "Ann" 10 "4B"]⟩ := by
  have hreach : Reachable ⟨some FormState.grade, some "Ann", some 10⟩ := by
    have h0 := Reachable.init
    have h1 := Reachable.next true .start DB.empty h0
    have h2 := Reachable.next true (.text "Ann") DB.empty h1
    have h3 := Reachable.next true (.text "10") DB.empty h2
    exact h3
  obtain ⟨nm, a, hnm, ha, -, hsucc, -⟩ :=
    final_validation_passes ⟨some FormState.grade, some "Ann", some 10⟩
      hreach rfl " 4B " DB.empty (by decide)
  have hnm' : nm = "Ann" := (Option.some.inj hnm).symm
  have ha' : a = 10 := (Option.some.inj ha).symm
  subst hnm'
  subst ha'
  rw [(by decide : pyStrip " 4B " = "4B")] at hsucc
  exact hsucc

/-! ## C9: interleaved users -/

/-- Telegram user identifiers (the keys of the dispatcher's
`MemoryStorage`). -/
abbrev UserId := Nat

/-- Dispatch one inbound event `(u, e)`: the handler runs on user `u`'s
session and the shared database; only `u`'s entry of the session map is
replaced. -/
def gstep (u : UserId) (e : Event) (σ : UserId → Session) (db : DB) :
    (UserId → Session) × DB :=
  (Function.update σ u (step true e (σ u) db).s, (step true e (σ u) db).db)

/-- Process a whole inbound event stream in arrival order. -/
def grun : List (UserId × Event) → (UserId → Session) → DB →
    ((UserId → Session) × DB)
  | [], σ, db => (σ, db)
  | (u, e) :: es, σ, db => grun es (gstep u e σ db).1 (gstep u e σ db).2

/-- Run a list of events against a single session, ignoring the
database (the session evolution does not depend on it). -/
def srun : List Event → Session → Session
  | [], s => s
  | e :: es, s => srun es (sstep e s)

/-- The subsequence of an event stream belonging to user `u`. -/
def projEvents (u : UserId) : List (UserId × Event) → List Event
  | [] => []
  | (v, e) :: es =>
    if v = u then e :: projEvents u es else projEvents u es

/-- The `(name, age, grade)` triple the handler inserts on this event,
if any: only a valid final grade step inserts, and the values inserted
are the stored stripped name, the stored age, and the stripped grade. -/
def insOf (e : Event) (s : Session) : Option (String × Int × String) :=
  match e with
  | .text t =>
    match s.st with
    | some FormState.grade =>
      if pyStrip t = "" then none
      else
        match s.dAge with
        | none => none
        | some a =>
          if pyStrip (s.dName.getD "") = "" then none
          else some (pyStrip (s.dName.getD ""), a, pyStrip t)
    | _ => none
  | _ => none

/-- Contents inserted during a single-user run, in order. -/
def strace : List Event → Session → List (String × Int × String)
  | [], _ => []
  | e :: es, s => (insOf e s).toList ++ strace es (sstep e s)

/-- Contents inserted during a multi-user run, tagged with the user
whose event caused the insert, in order. -/
def gtrace : List (UserId × Event) → (UserId → Session) →
    List (UserId × (String × Int × String))
  | [], _ => []
  | (v, e) :: es, σ =>
    ((insOf e (σ v)).map fun q => (v, q)).toList ++
      gtrace es (Function.update σ v (sstep e (σ v)))

/-- The inserts of a tagged trace belonging to user `u`. -/
def traceOf (u : UserId) :
    List (UserId × (String × Int × String)) → List (String × Int × String)
  | [] => []
  | (v, q) :: ps => if v = u then q :: traceOf u ps else traceOf u ps

/-- The observable content of a persisted row, without its id. -/
def contentOf (r : Student) : String × Int × String :=
  (r.name, r.age, r.grade)

lemma step_db_eq (e : Event) (s : Session) (db : DB) :
    (step true e s db).db =
      (match insOf e s with
       | none => db
       | some q => (add_student db q.1 q.2.1 q.2.2).1) := by
  unfold step insOf
  cases e with
  | start => rfl
  | cancel => rfl
  | listRecent => rfl
  | exportCsv => rfl
  | text t =>
    rcases s.st with _ | f
    · rfl
    · cases f with
      | name => dsimp only; split <;> rfl
      | age => dsimp only; rcases parse_age t with _ | a <;> rfl
      | grade =>
        dsimp only
        split
        · rfl
        · rcases s.dAge with _ | a
          · rfl
          · dsimp only
            split <;> rfl

lemma insOf_stripped {e : Event} {s : Session} {q : String × Int × String}
    (h : insOf e s = some q) :
    pyStrip q.1 = q.1 ∧ pyStrip q.2.2 = q.2.2 := by
  unfold insOf at h
  cases e with
  | start => simp at h
  | cancel => simp at h
  | listRecent => simp at h
  | exportCsv => simp at h
  | text t =>
    dsimp only at h
    rcases hst : s.st with _ | f <;> rw [hst] at h
    · simp at h
    · cases f with
      | name => simp at h
      | age => simp at h
      | grade =>
        dsimp only at h
        split at h
        · simp at h
        · rcases ha : s.dAge with _ | a <;> rw [ha] at h
          · simp at h
          · dsimp only at h
            split at h
            · simp at h
            · have hq := Option.some.inj h
              subst hq
              exact ⟨pyStrip_idem _, pyStrip_idem _⟩

lemma gstep_sessions (u : UserId) (e : Event) (σ : UserId → Session)
    (db : DB) :
    (gstep u e σ db).1 = Function.update σ u (sstep e (σ u)) := by
  unfold gstep
  rw [step_s_eq]

lemma grun_sessions (es : List (UserId × Event)) (σ : UserId → Session)
    (db : DB) (u : UserId) :
    (grun es σ db).1 u = srun (projEvents u es) (σ u) := by
  induction es generalizing σ db with
  | nil => rfl
  | cons p es ih =>
    obtain ⟨v, e⟩ := p
    simp only [grun]
    rw [ih, gstep_sessions]
    by_cases hv : v = u
    · subst hv
      simp only [projEvents, if_pos rfl, srun, Function.update_same]
    · simp only [projEvents, if_neg hv, Function.update_noteq (Ne.symm hv)]

lemma gtrace_proj (es : List (UserId × Event)) (σ : UserId → Session)
    (u : UserId) :
    traceOf u (gtrace es σ) = strace (projEvents u es) (σ u) := by
  induction es generalizing σ with
  | nil => rfl
  | cons p es ih =>
    obtain ⟨v, e⟩ := p
    by_cases hv : v = u
    · subst hv
      rcases hio : insOf e (σ v) with _ | q <;>
        simp [gtrace, hio, traceOf, projEvents, strace, ih,
          Function.update_same]
    · rcases hio : insOf e (σ v) with _ | q <;>
        simp [gtrace, hio, traceOf, projEvents, strace, ih, hv,
          Function.update_noteq (Ne.symm hv)]

lemma grun_rows (es : List (UserId × Event)) (σ : UserId → Session)
    (db : DB) :
    (grun es σ db).2.rows.map contentOf =
      db.rows.map contentOf ++ (gtrace es σ).map Prod.snd := by
  induction es generalizing σ db with
  | nil => simp [grun, gtrace]
  | cons p es ih =>
    obtain ⟨v, e⟩ := p
    simp only [grun, gtrace]
    rw [ih, gstep_sessions]
    have hdb : (gstep v e σ db).2 =
        (match insOf e (σ v) with
         | none => db
         | some q => (add_student db q.1 q.2.1 q.2.2).1) := by
      unfold gstep
      exact step_db_eq e (σ v) db
    rcases hio : insOf e (σ v) with _ | q
    · rw [hio] at hdb
      rw [hdb]
      simp [hio]
    · rw [hio] at hdb
      rw [hdb]
      obtain ⟨h1, h2⟩ := insOf_stripped hio
      simp [hio, add_student, contentOf, h1, h2]

/-- C9 (amended): session isolation holds — after any interleaved event
stream, each user's session equals the session obtained by running just
that user's events, and the record contents `(name, age, grade)`
inserted on behalf of each user are exactly those of a standalone run of
that user's events; the shared table accumulates all users' inserts in
global arrival order (which is what assigns the ids). -/
theorem session_isolation (es : List (UserId × Event))
    (σ : UserId → Session) (db : DB) (u : UserId) :
    (grun es σ db).1 u = srun (projEvents u es) (σ u) ∧
    traceOf u (gtrace es σ) = strace (projEvents u es) (σ u) ∧
    (grun es σ db).2.rows.map contentOf =
      db.rows.map contentOf ++ (gtrace es σ).map Prod.snd :=
  ⟨grun_sessions es σ db u, gtrace_proj es σ u, grun_rows es σ db⟩

/-- C9 counterexample: with two users whose dialogues interleave, the
interleaved run assigns ids `1` to Bob and `2` to Ann, while each
dialogue run separately produces a record with id `1` — so the set of
persisted records differs from the separate runs (the contents agree,
the ids do not). -/
theorem interleaving_changes_ids :
    (grun [(0, .start), (1, .start), (0, .text "Ann"), (1, .text "Bob"),
           (0, .text "10"), (1, .text "11"), (1, .text "5A"), (0, .text "4B")]
        (fun _ => Session.idle) DB.empty).2.rows =
      [⟨1, "Bob", 11, "5A"⟩, ⟨2, "Ann", 10, "4B"⟩] ∧
    (grun [(0, .start), (0, .text "Ann"), (0, .text "10"), (0, .text "4B")]
        (fun _ => Session.idle) DB.empty).2.rows =
      [⟨1, "Ann", 10, "4B"⟩] ∧
    (grun [(1, .start), (1, .text "Bob"), (1, .text "11"), (1, .text "5A")]
        (fun _ => Session.idle) DB.empty).2.rows =
      [⟨1, "Bob", 11, "5A"⟩] ∧
    ¬ ((grun [(0, .start), (1, .start), (0, .text "Ann"), (1, .text "Bob"),
              (0, .text "10"), (1, .text "11"), (1, .text "5A"),
              (0, .text "4B")]
          (fun _ => Session.idle) DB.empty).2.rows.Perm
        ((grun [(0, .start), (0, .text "Ann"), (0, .text "10"),
                (0, .text "4B")]
            (fun _ => Session.idle) DB.empty).2.rows ++
         (grun [(1, .start), (1, .text "Bob"), (1, .text "11"),
                (1, .text "5A")]
            (fun _ => Session.idle) DB.empty).2.rows)) := by
  refine ⟨by decide, by decide, by decide, by decide⟩

/-! ## C7: CSV export -/

/-- Split a character list at newline characters: the result lists the
maximal newline-free segments (a trailing newline yields a final empty
segment), modelling how the written file reads back as lines. -/
def splitNl : List Char → List (List Char)
  | [] => [[]]
  | c :: rest =>
    if c = '\n' then [] :: splitNl rest
    else
      match splitNl rest with
      | [] => [c] :: []
      | h :: t => (c :: h) :: t

/-- The lines of a file's contents. -/
def fileLines (s : String) : List String :=
  (splitNl s.data).map String.mk

lemma splitNl_append_nl (l1 l2 : List Char) (h : '\n' ∉ l1) :
    splitNl (l1 ++ '\n' :: l2) = l1 :: splitNl l2 := by
  induction l1 with
  | nil => simp [splitNl]
  | cons c l1 ih =>
    have hc : ¬ c = '\n' := fun hh => h (List.mem_cons.mpr (Or.inl hh.symm))
    have h1 : '\n' ∉ l1 := fun hm => h (List.mem_cons_of_mem _ hm)
    simp only [List.cons_append, splitNl, if_neg hc]
    rw [List.append_eq, ih h1]

lemma splitNl_flatten (bs : List (List Char)) (h : ∀ b ∈ bs, '\n' ∉ b) :
    splitNl ((bs.map (fun b => b ++ ['\n'])).flatten) = bs ++ [[]] := by
  induction bs with
  | nil => rfl
  | cons b bs ih =>
    have hb : '\n' ∉ b := h b (List.mem_cons_self b bs)
    have hrest : ∀ x ∈ bs, '\n' ∉ x := fun x hx => h x (List.mem_cons_of_mem _ hx)
    rw [List.map_cons, List.flatten_cons, List.append_assoc,
      List.singleton_append, splitNl_append_nl _ _ hb, ih hrest]
    rfl

lemma writeAll_data (rs : List Student) :
    (writeAll rs).data =
      ((rs.map (fun r => (csvBody r).data ++ ['\n'])).flatten) := by
  induction rs with
  | nil => rfl
  | cons r rs ih =>
    show (csvLine r ++ writeAll rs).data = _
    rw [String.data_append, ih, List.map_cons, List.flatten_cons]
    congr 1

/-! ### Decimal renderings contain only digits (and a possible sign) -/

lemma isDig_digitChar (m : Nat) (h : m < 10) :
    isDig (Char.ofNat (48 + m)) = true := by
  interval_cases m <;> decide

lemma natToDecCore_mem : ∀ (fuel n : Nat) (acc : List Char) (c : Char),
    c ∈ natToDecCore fuel n acc → c ∈ acc ∨ isDig c = true := by
  intro fuel
  induction fuel with
  | zero => intro n acc c hc; exact Or.inl hc
  | succ fuel ih =>
    intro n acc c hc
    rw [natToDecCore] at hc
    have hd : isDig (Char.ofNat (48 + n % 10)) = true :=
      isDig_digitChar (n % 10) (Nat.mod_lt _ (by decide))
    split at hc
    · rcases List.mem_cons.mp hc with hc1 | hc2
      · exact Or.inr (hc1 ▸ hd)
      · exact Or.inl hc2
    · rcases ih _ _ _ hc with hc1 | hc2
      · rcases List.mem_cons.mp hc1 with hc3 | hc4
        · exact Or.inr (hc3 ▸ hd)
        · exact Or.inl hc4
      · exact Or.inr hc2

lemma natToDec_digits (n : Nat) (c : Char) (hc : c ∈ (natToDec n).data) :
    isDig c = true := by
  rcases natToDecCore_mem (n + 1) n [] c hc with h | h
  · simp at h
  · exact h

lemma intToDec_chars (i : Int) (c : Char) (hc : c ∈ (intToDec i).data) :
    isDig c = true ∨ c = '-' := by
  cases i with
  | ofNat n => exact Or.inl (natToDec_digits n c hc)
  | negSucc n =>
    have hdata : (intToDec (Int.negSucc n)).data =
        '-' :: (natToDec (n + 1)).data := rfl
    rw [hdata] at hc
    rcases List.mem_cons.mp hc with h | h
    · exact Or.inr h
    · exact Or.inl (natToDec_digits _ c h)

lemma no_nl_csvBody (r : Student) (hn : '\n' ∉ r.name.data)
    (hg : '\n' ∉ r.grade.data) : '\n' ∉ (csvBody r).data := by
  intro hmem
  simp only [csvBody, String.data_append, List.mem_append] at hmem
  rcases hmem with ((((((h | h) | h) | h) | h) | h) | h)
  · exact absurd (natToDec_digits _ _ h) (by decide)
  · exact absurd h (by decide)
  · exact hn h
  · exact absurd h (by decide)
  · rcases intToDec_chars _ _ h with h2 | h2
    · exact absurd h2 (by decide)
    · exact absurd h2 (by decide)
  · exact absurd h (by decide)
  · exact hg h

/-! ### Decimal renderings of bounded numbers are short -/

lemma natToDecCore_len : ∀ (fuel n : Nat) (acc : List Char) (k : Nat),
    1 ≤ k → n < 10 ^ k → (natToDecCore fuel n acc).length ≤ k + acc.length := by
  intro fuel
  induction fuel with
  | zero =>
    intro n acc k hk _
    rw [natToDecCore]
    omega
  | succ fuel ih =>
    intro n acc k hk h
    rw [natToDecCore]
    split
    · simp only [List.length_cons]
      omega
    · rename_i hn
      have hk2 : 2 ≤ k := by
        rcases Nat.lt_or_ge k 2 with hk1 | hk2
        · have hke : k = 1 := by omega
          subst hke
          rw [pow_one] at h
          omega
        · exact hk2
      have hdiv : n / 10 < 10 ^ (k - 1) := by
        have hpow : 10 ^ (k - 1) * 10 = 10 ^ k := by
          rw [← pow_succ]
          congr 1
          omega
        exact (Nat.div_lt_iff_lt_mul (by norm_num)).mpr (by rw [hpow]; exact h)
      have hrec := ih (n / 10) (Char.ofNat (48 + n % 10) :: acc) (k - 1)
        (by omega) hdiv
      simp only [List.length_cons] at hrec
      omega

lemma natToDec_len_le (n k : Nat) (hk : 1 ≤ k) (h : n < 10 ^ k) :
    (natToDec n).length ≤ k := by
  have := natToDecCore_len (n + 1) n [] k hk h
  simpa using this

lemma padNum_len (w n : Nat) (hw : 1 ≤ w) (h : n < 10 ^ w) :
    (padNum w n).length = w := by
  have hle := natToDec_len_le n w hw h
  show (String.mk (List.replicate (w - (natToDec n).length) '0') ++
      natToDec n).length = w
  rw [String.length_append]
  show (List.replicate (w - (natToDec n).length) '0').length +
      (natToDec n).length = w
  rw [List.length_replicate]
  omega

lemma padNum_digits (w n : Nat) (c : Char) (hc : c ∈ (padNum w n).data) :
    isDig c = true := by
  unfold padNum at hc
  rw [String.data_append] at hc
  rcases List.mem_append.mp hc with h | h
  · have hc0 : c = '0' := List.eq_of_mem_replicate h
    subst hc0
    decide
  · exact natToDec_digits n c h

/-! ### The export theorems -/

lemma mk_data (s : String) : String.mk s.data = s := rfl

lemma mk_nil : String.mk ([] : List Char) = "" := rfl

lemma fileLines_export (db : DB) (t : Timestamp)
    (hnl : ∀ r ∈ db.rows, '\n' ∉ r.name.data ∧ '\n' ∉ r.grade.data) :
    fileLines (export_students_csv db t).2 =
      "id,name,age,grade" ::
        ((List.insertionSort idAsc db.rows).map csvBody ++ [""]) := by
  have hrows : ∀ r ∈ List.insertionSort idAsc db.rows,
      '\n' ∉ (csvBody r).data := by
    intro r hr
    have hmem : r ∈ db.rows :=
      (List.Perm.mem_iff (List.perm_insertionSort idAsc db.rows)).mp hr
    exact no_nl_csvBody r (hnl r hmem).1 (hnl r hmem).2
  show fileLines ("id,name,age,grade\n" ++
      writeAll (List.insertionSort idAsc db.rows)) = _
  unfold fileLines
  rw [String.data_append,
    (by decide : ("id,name,age,grade\n").data =
      ("id,name,age,grade").data ++ ['\n']),
    List.append_assoc, List.singleton_append,
    splitNl_append_nl _ _ (by decide), writeAll_data]
  have hsplit : splitNl (((List.insertionSort idAsc db.rows).map
      (fun r => (csvBody r).data ++ ['\n'])).flatten) =
      ((List.insertionSort idAsc db.rows).map fun r => (csvBody r).data)
        ++ [[]] := by
    have hs := splitNl_flatten
      ((List.insertionSort idAsc db.rows).map fun r => (csvBody r).data)
      (by
        intro b hb
        obtain ⟨r, hr, hbe⟩ := List.mem_map.mp hb
        rw [← hbe]
        exact hrows r hr)
    rw [List.map_map] at hs
    exact hs
  rw [hsplit, List.map_cons, List.map_append, List.map_map]
  simp only [Function.comp_def, mk_data, mk_nil]
  rfl

/-- C7 counterexample: a repository holding one record whose name
contains a line break (reachable, since a Telegram message may span
lines and only leading/trailing whitespace is stripped) yields an export
file of 3 lines for 1 record — the claim's "one line per record" fails
on this repository contents. -/
theorem export_newline_counterexample :
    fileLines (export_students_csv ⟨[⟨1, "a\nb", 10, "x"⟩], 2⟩
        ⟨2026, 1, 2, 3, 4, 5⟩).2 =
      ["id,name,age,grade", "1,a", "b,10,x", ""] ∧
    (fileLines (export_students_csv ⟨[⟨1, "a\nb", 10, "x"⟩], 2⟩
        ⟨2026, 1, 2, 3, 4, 5⟩).2).length ≠ 1 + 1 + 1 := by
  exact ⟨by decide, by decide⟩

/-- C7 (amended): provided no stored name or grade contains a line
break, the export file is exactly the header line `id,name,age,grade`
followed by one line per record in ascending id order, each line the
four field values joined by literal commas with no quoting or escaping;
the rows listed are a permutation of the repository (one per record)
sorted ascending by id; and the returned path is
`exports/students_<8 digits>_<6 digits>.csv` (the `YYYYMMDD_HHMMSS`
timestamp, whose fields always satisfy the stated bounds for a real
`datetime`), inside the dedicated `exports` directory. -/
theorem export_csv_format (db : DB) (t : Timestamp)
    (hnl : ∀ r ∈ db.rows, '\n' ∉ r.name.data ∧ '\n' ∉ r.grade.data)
    (hy : t.year < 10000) (hmo : t.month < 100) (hd : t.day < 100)
    (hh : t.hour < 100) (hmi : t.minute < 100) (hs : t.second < 100) :
    fileLines (export_students_csv db t).2 =
      "id,name,age,grade" ::
        ((List.insertionSort idAsc db.rows).map csvBody ++ [""]) ∧
    List.Sorted idAsc (List.insertionSort idAsc db.rows) ∧
    (List.insertionSort idAsc db.rows).Perm db.rows ∧
    ∃ d8 d6 : String,
      (export_students_csv db t).1 =
        "exports/students_" ++ d8 ++ "_" ++ d6 ++ ".csv" ∧
      d8.length = 8 ∧ d6.length = 6 ∧
      (∀ c ∈ d8.data, isDig c = true) ∧ (∀ c ∈ d6.data, isDig c = true) := by
  refine ⟨fileLines_export db t hnl, List.sorted_insertionSort idAsc db.rows,
    List.perm_insertionSort idAsc db.rows,
    padNum 4 t.year ++ padNum 2 t.month ++ padNum 2 t.day,
    padNum 2 t.hour ++ padNum 2 t.minute ++ padNum 2 t.second,
    ?_, ?_, ?_, ?_, ?_⟩
  · show "exports/students_" ++ tsFormat t ++ ".csv" = _
    apply String.ext
    unfold tsFormat
    simp only [String.data_append, List.append_assoc]
  · rw [String.length_append, String.length_append,
      padNum_len 4 t.year (by norm_num) hy,
      padNum_len 2 t.month (by norm_num) hmo,
      padNum_len 2 t.day (by norm_num) hd]
  · rw [String.length_append, String.length_append,
      padNum_len 2 t.hour (by norm_num) hh,
      padNum_len 2 t.minute (by norm_num) hmi,
      padNum_len 2 t.second (by norm_num) hs]
  · intro c hc
    rw [String.data_append, List.mem_append] at hc
    rcases hc with hc | hc
    · rw [String.data_append, List.mem_append] at hc
      rcases hc with hc | hc
      · exact padNum_digits 4 t.year c hc
      · exact padNum_digits 2 t.month c hc
    · exact padNum_digits 2 t.day c hc
  · intro c hc
    rw [String.data_append, List.mem_append] at hc
    rcases hc with hc | hc
    · rw [String.data_append, List.mem_append] at hc
      rcases hc with hc | hc
      · exact padNum_digits 2 t.hour c hc
      · exact padNum_digits 2 t.minute c hc
    · exact padNum_digits 2 t.second c hc

/-- C7 witness: exporting a repository with records 1..3 at a concrete
time produces the four expected lines (header + 3 rows, ascending) and
the expected timestamped path. -/
theorem export_csv_format_witness :
    fileLines (export_students_csv
        ⟨[⟨1, "Ann", 10, "4B"⟩, ⟨2, "Bob", 11, "5A"⟩, ⟨3, "Cid", 12, "6C"⟩], 4⟩
        ⟨2026, 10, 12, 13, 14, 15⟩).2 =
      "id,name,age,grade" ::
        ((List.insertionSort idAsc
            ([⟨1, "Ann", 10, "4B"⟩, ⟨2, "Bob", 11, "5A"⟩,
              ⟨3, "Cid", 12, "6C"⟩] : List Student)).map csvBody ++ [""]) :=
  (export_csv_format
    ⟨[⟨1, "Ann", 10, "4B"⟩, ⟨2, "Bob", 11, "5A"⟩, ⟨3, "Cid", 12, "6C"⟩], 4⟩
    ⟨2026, 10, 12, 13, 14, 15⟩ (by decide) (by decide) (by decide)
    (by decide) (by decide) (by decide) (by decide)).1

end SchoolBot
